import Mathlib

/-!
Shallow embedding of the pewpi-shared services of `infinity-brain-031`
(wallet-unified, machines/adapter, integration-listener), together with
theorems settling the frozen claims about them.

Modelling conventions:
* JS numeric amounts are modelled as `Int`; the embedded code uses only
  ordering, addition and subtraction of amounts, never division.
* Generated ids, ISO timestamps and spread metadata (`...metadata`) are
  elided from records where no claim mentions them; where a claim needs
  a timestamp it is threaded in as a natural number.
* `async`/`await` wrap logically synchronous work; methods are embedded
  as pure state transformers `State → Result × State`.
* External services (token service, auth service) reached through an
  injected handle are modelled as oracles: the outcome of the call is an
  explicit argument of the embedded method.
-/

namespace Pewpi

/-- Transaction type tag: the `type` field of a wallet transaction,
either the string `credit` or the string `debit`. -/
inductive TxType where
  | credit
  | debit
deriving DecidableEq, Repr

/-- A wallet transaction `{id, type, amount, timestamp, ...metadata}`;
id, timestamp and metadata are elided (no claim mentions them). -/
structure Transaction where
  txType : TxType
  amount : Int
deriving DecidableEq, Repr

/-- Result object of the wallet methods: `{success, error?, balance?, token?}`.
Fields absent from a given JS return are `none`. -/
structure WalletResult where
  success : Bool
  error : Option String := none
  balance : Option Int := none
  token : Option String := none
deriving DecidableEq, Repr

/-- Mutable state of a `WalletUnified` instance.  `hasTokenService`
records whether `options.tokenService` was supplied at construction. -/
structure Wallet where
  balance : Int
  transactions : List Transaction
  hasTokenService : Bool
deriving DecidableEq, Repr

/-- Outcome of a call to the injected token service `createToken`
(an oracle from the point of view of the wallet). -/
structure TokenCreateResult where
  success : Bool
  error : Option String := none
  tokenId : Option String := none
deriving DecidableEq, Repr

/-- The `tokenData` argument of `purchaseToken`: only the fields the
wallet reads (`value`, and `id` which it merely forwards). -/
structure TokenData where
  id : Option String := none
  value : Option Int := none
deriving DecidableEq, Repr

/-- `WalletUnified.addFunds(amount, metadata)`: rejects non-positive
amounts, otherwise credits the balance and appends one transaction. -/
def addFunds (w : Wallet) (amount : Int) : WalletResult × Wallet :=
  if amount ≤ 0 then
    ({ success := false, error := some "Invalid amount" }, w)
  else
    let t : Transaction := { txType := .credit, amount := amount }
    let w' : Wallet :=
      { w with balance := w.balance + amount,
               transactions := w.transactions ++ [t] }
    ({ success := true, balance := some w'.balance }, w')

/-- `WalletUnified.deductFunds(amount, metadata)`: rejects non-positive
amounts, then insufficient balance, otherwise debits the balance and
appends one transaction. -/
def deductFunds (w : Wallet) (amount : Int) : WalletResult × Wallet :=
  if amount ≤ 0 then
    ({ success := false, error := some "Invalid amount" }, w)
  else if w.balance < amount then
    ({ success := false, error := some "Insufficient funds" }, w)
  else
    let t : Transaction := { txType := .debit, amount := amount }
    let w' : Wallet :=
      { w with balance := w.balance - amount,
               transactions := w.transactions ++ [t] }
    ({ success := true, balance := some w'.balance }, w')

/-- `WalletUnified.purchaseToken(tokenData)`.  `tok` is the oracle for
the token service call `createToken(tokenData)` (only reached on the
branch that performs it).  The third component of the result records
whether `createToken` was actually invoked. -/
def purchaseToken (w : Wallet) (td : TokenData) (tok : TokenCreateResult) :
    WalletResult × Wallet × Bool :=
  if ¬ w.hasTokenService then
    ({ success := false, error := some "Token service not configured" }, w, false)
  else
    let amount := td.value.getD 0
    if w.balance < amount then
      ({ success := false, error := some "Insufficient funds" }, w, false)
    else
      let dres := deductFunds w amount
      if dres.1.success = false then
        (dres.1, dres.2, false)
      else if tok.success = false then
        let rollback := addFunds dres.2 amount
        ({ success := false, error := tok.error }, rollback.2, true)
      else
        ({ success := true, token := tok.tokenId, balance := some dres.2.balance },
         dres.2, true)

/-- One wallet call in a run: the mutating public methods, with the
token-service oracle outcome attached to `purchaseToken`. -/
inductive WOp where
  | add (amount : Int)
  | deduct (amount : Int)
  | purchase (td : TokenData) (tok : TokenCreateResult)
deriving DecidableEq, Repr

/-- State effect of one wallet call. -/
def walletStep (w : Wallet) (op : WOp) : Wallet :=
  match op with
  | .add a => (addFunds w a).2
  | .deduct a => (deductFunds w a).2
  | .purchase td tok => (purchaseToken w td tok).2.1

/-- State after a sequence of wallet calls. -/
def runWallet (w : Wallet) (ops : List WOp) : Wallet :=
  ops.foldl walletStep w

/-- Signed amount of a transaction: credits count positively, debits
negatively. -/
def txSigned (t : Transaction) : Int :=
  match t.txType with
  | .credit => t.amount
  | .debit => -t.amount

/-- Net signed amount of a transaction list. -/
def netAmount (ts : List Transaction) : Int :=
  (ts.map txSigned).sum

/-- Result object of a service call reached through the machine adapter
(auth signIn/signOut, token createToken, wallet addFunds/purchaseToken):
`{success, error?}`.  Payload fields other than `error` are elided. -/
structure SvcResult where
  success : Bool
  error : Option String := none
deriving DecidableEq, Repr

/-- Oracle for the services injected into a `MachineAdapter`: which
services were supplied at construction, and the outcome each service
call would report if reached during this `transition` call.  `now` is
the timestamp `new Date()` would produce. -/
structure ServiceEnv where
  hasAuth : Bool
  hasToken : Bool
  hasWallet : Bool
  signInResult : SvcResult
  signOutResult : SvcResult
  createTokenResult : SvcResult
  addFundsResult : SvcResult
  purchaseResult : SvcResult
  now : Nat
deriving DecidableEq, Repr

/-- Value returned by a transition handler: `{nextState?}`, `{error?}`
or `{data}` in the source. -/
structure HandlerResult where
  nextState : Option String := none
  error : Option String := none
  data : Option SvcResult := none
deriving DecidableEq, Repr

/-- The transition table built by `MachineAdapter._defineTransitions`,
as a lookup from the `state:action` key to the (already evaluated)
handler outcome; keys not registered map to `none`. -/
def lookupTransition (env : ServiceEnv) (key : String) : Option HandlerResult :=
  if key = "initialized:signin" then
    some (if env.hasAuth = false then { error := some "Auth service not available" }
          else if env.signInResult.success then { nextState := some "authenticated" }
          else { error := env.signInResult.error })
  else if key = "authenticated:signout" then
    some (if env.hasAuth = false then { error := some "Auth service not available" }
          else if env.signOutResult.success then { nextState := some "initialized" }
          else { error := env.signOutResult.error })
  else if key = "authenticated:create_token" then
    some (if env.hasToken = false then { error := some "Token service not available" }
          else { data := some env.createTokenResult })
  else if key = "authenticated:add_funds" then
    some (if env.hasWallet = false then { error := some "Wallet service not available" }
          else { data := some env.addFundsResult })
  else if key = "authenticated:purchase_token" then
    some (if env.hasWallet = false then { error := some "Wallet service not available" }
          else { data := some env.purchaseResult })
  else none

/-- A state history entry `{from, to, timestamp, ...metadata}`; the
spread metadata is elided. -/
structure HistoryEntry where
  fromState : String
  toState : String
  timestamp : Nat
deriving DecidableEq, Repr

/-- Mutable state of a `MachineAdapter` instance. -/
structure Machine where
  currentState : String
  stateHistory : List HistoryEntry
deriving DecidableEq, Repr

/-- `this.maxHistorySize` as set in the constructor. -/
def maxHistorySize : Nat := 100

/-- `MachineAdapter._transitionTo(newState, metadata)`: set the current
state, push a history entry, and shift the oldest entry off when the
history exceeds `maxHistorySize`.  The integration event it emits does
not touch machine state and is elided here. -/
def transitionTo (m : Machine) (newState : String) (now : Nat) : Machine :=
  let entry : HistoryEntry :=
    { fromState := m.currentState, toState := newState, timestamp := now }
  let h := m.stateHistory ++ [entry]
  { currentState := newState,
    stateHistory := if maxHistorySize < h.length then h.tail else h }

/-- Result object of `MachineAdapter.transition`: on the handler path
the source returns `{ success: true, state, ...result }`, spreading the
handler result (its `nextState`, `error` and `data` fields) into the
envelope; on the missing-handler path only `{success, error}`. -/
structure TransitionResult where
  success : Bool
  error : Option String := none
  state : Option String := none
  nextState : Option String := none
  data : Option SvcResult := none
deriving DecidableEq, Repr

/-- `MachineAdapter.transition(action, context)`. -/
def transition (env : ServiceEnv) (m : Machine) (action : String) :
    TransitionResult × Machine :=
  match lookupTransition env (m.currentState ++ ":" ++ action) with
  | none =>
    ({ success := false,
       error := some ("No transition from " ++ m.currentState ++ " on " ++ action) }, m)
  | some r =>
    let m' := match r.nextState with
      | some ns => transitionTo m ns env.now
      | none => m
    ({ success := true, state := some m'.currentState, nextState := r.nextState,
       error := r.error, data := r.data }, m')

/-- One machine-adapter state change in a run: a public `transition`
call, or a direct `_transitionTo` (initialize, or the auto-transition
installed by `_subscribeToServices`). -/
inductive MStep where
  | act (action : String) (env : ServiceEnv)
  | auto (newState : String) (now : Nat)
deriving DecidableEq, Repr

/-- State effect of one machine-adapter step. -/
def machineStep (m : Machine) (s : MStep) : Machine :=
  match s with
  | .act action env => (transition env m action).2
  | .auto ns now => transitionTo m ns now

/-- Machine state after a sequence of steps; the constructor starts at
`currentState = 'idle'` with empty history. -/
def runMachine (m : Machine) (steps : List MStep) : Machine :=
  steps.foldl machineStep m

/-- `IntegrationListener.on` registry: the `listeners` Map, as an
association list from event pattern to the callbacks (identified by
number) registered under it, both in insertion order; a JS Set never
holds the same callback twice. -/
def addListener : List (String × List Nat) → String → Nat → List (String × List Nat)
  | [], pat, cb => [(pat, [cb])]
  | (q, cbs) :: rest, pat, cb =>
    if q = pat then (q, if cb ∈ cbs then cbs else cbs ++ [cb]) :: rest
    else (q, cbs) :: addListener rest pat cb

/-- `this.listeners.get(pattern)`, defaulting to no callbacks. -/
def getCallbacks : List (String × List Nat) → String → List Nat
  | [], _ => []
  | (q, cbs) :: rest, pat => if q = pat then cbs else getCallbacks rest pat

/-- Listener registry produced by a sequence of `on(pattern, callback)`
calls starting from the empty Map. -/
def buildListeners (regs : List (String × Nat)) : List (String × List Nat) :=
  regs.foldl (fun ls r => addListener ls r.1 r.2) []

/-- The callbacks registered under pattern `p`, in registration order,
with repeats kept (raw `on` call sequence restricted to `p`). -/
def regsFor (regs : List (String × Nat)) (p : String) : List Nat :=
  (regs.filter (fun r => r.1 = p)).map (fun r => r.2)

/-- The three patterns `_dispatchEvent` iterates, in source order. -/
def eventPatterns (service ty : String) : List String :=
  [service ++ ":" ++ ty, service ++ ":*", "*"]

/-- `IntegrationListener._dispatchEvent`: the sequence of callback
invocations it performs for one event, iterating the three patterns and,
under each, the registered callbacks in order.  Callback exceptions are
caught and do not stop the iteration, so the invocation sequence is the
full concatenation. -/
def dispatchEvent (ls : List (String × List Nat)) (service ty : String) : List Nat :=
  (eventPatterns service ty).foldl (fun acc p => acc ++ getCallbacks ls p) []

/-- JS Set insertion: append the callback unless already present. -/
def setInsert (cur : List Nat) (cb : Nat) : List Nat :=
  if cb ∈ cur then cur else cur ++ [cb]

/-- Fold of `setInsert` over a list of callbacks. -/
def insertAll (cur : List Nat) (news : List Nat) : List Nat :=
  news.foldl setInsert cur

/-- Queue-and-flag state of an `IntegrationListener` instance (events
identified by number; payloads are irrelevant to the queue claims). -/
structure IntState where
  eventQueue : List Nat
  isProcessing : Bool
deriving DecidableEq, Repr

/-- The `_processQueue` drain loop: repeatedly shift the head event and
dispatch it; `emits e` are the events that callbacks for `e` enqueue
re-entrantly (their `_handleEvent` calls hit the `isProcessing` guard
and only push).  `fuel` bounds the number of loop iterations; the JS
loop runs until the queue empties.  Returns the dispatch order and the
remaining queue. -/
def drain (emits : Nat → List Nat) : Nat → List Nat → List Nat × List Nat
  | 0, q => ([], q)
  | _ + 1, [] => ([], [])
  | fuel + 1, e :: rest =>
    let d := drain emits fuel (rest ++ emits e)
    (e :: d.1, d.2)

/-- `IntegrationListener._processQueue`: return immediately when already
processing or the queue is empty, otherwise drain under the flag and
clear the flag. -/
def processQueue (emits : Nat → List Nat) (fuel : Nat) (st : IntState) :
    List Nat × IntState :=
  if st.isProcessing || st.eventQueue.isEmpty then ([], st)
  else
    let d := drain emits fuel st.eventQueue
    (d.1, ⟨d.2, false⟩)

/-- `IntegrationListener._handleEvent`: push the event, then run
`_processQueue`. -/
def handleEvent (emits : Nat → List Nat) (fuel : Nat) (st : IntState) (e : Nat) :
    List Nat × IntState :=
  processQueue emits fuel ⟨st.eventQueue ++ [e], st.isProcessing⟩

lemma netAmount_append (a b : List Transaction) :
    netAmount (a ++ b) = netAmount a + netAmount b := by
  simp [netAmount]

lemma runWallet_cons (w : Wallet) (op : WOp) (ops : List WOp) :
    runWallet w (op :: ops) = runWallet (walletStep w op) ops := by
  simp [runWallet]

/-- One wallet call only appends transactions, and moves the balance by
exactly the net signed amount of what it appended. -/
lemma walletStep_ledger (w : Wallet) (op : WOp) :
    ∃ ts, (walletStep w op).transactions = w.transactions ++ ts ∧
      (walletStep w op).balance = w.balance + netAmount ts := by
  cases op with
  | add a =>
    by_cases h : a ≤ 0
    · exact ⟨[], by simp [walletStep, addFunds, h, netAmount]⟩
    · exact ⟨[⟨.credit, a⟩], by simp [walletStep, addFunds, h, netAmount, txSigned]⟩
  | deduct a =>
    by_cases h : a ≤ 0
    · exact ⟨[], by simp [walletStep, deductFunds, h, netAmount]⟩
    · by_cases h2 : w.balance < a
      · exact ⟨[], by simp [walletStep, deductFunds, h, h2, netAmount]⟩
      · refine ⟨[⟨.debit, a⟩], by simp [walletStep, deductFunds, h, h2, netAmount, txSigned]; ring⟩
  | purchase td tok =>
    by_cases hs : w.hasTokenService
    · by_cases h2 : w.balance < td.value.getD 0
      · exact ⟨[], by simp [walletStep, purchaseToken, hs, h2, netAmount]⟩
      · by_cases h : td.value.getD 0 ≤ 0
        · exact ⟨[], by simp [walletStep, purchaseToken, deductFunds, hs, h2, h, netAmount]⟩
        · by_cases ht : tok.success
          · refine ⟨[⟨.debit, td.value.getD 0⟩], ?_⟩
            simp [walletStep, purchaseToken, deductFunds, hs, h2, h, ht, netAmount, txSigned]
            omega
          · refine ⟨[⟨.debit, td.value.getD 0⟩, ⟨.credit, td.value.getD 0⟩], ?_⟩
            simp [walletStep, purchaseToken, deductFunds, addFunds, hs, h2, h, ht,
              netAmount, txSigned]
    · exact ⟨[], by simp [walletStep, purchaseToken, hs, netAmount]⟩

/-- One wallet call keeps a non-negative balance non-negative. -/
lemma walletStep_nonneg (w : Wallet) (op : WOp) (h0 : 0 ≤ w.balance) :
    0 ≤ (walletStep w op).balance := by
  obtain ⟨ts, -, hb⟩ := walletStep_ledger w op
  cases op with
  | add a =>
    by_cases h : a ≤ 0
    · simp [walletStep, addFunds, h]; omega
    · simp [walletStep, addFunds, h]; omega
  | deduct a =>
    by_cases h : a ≤ 0
    · simp [walletStep, deductFunds, h]; omega
    · by_cases h2 : w.balance < a
      · simp [walletStep, deductFunds, h, h2]; omega
      · simp [walletStep, deductFunds, h, h2]; omega
  | purchase td tok =>
    by_cases hs : w.hasTokenService
    · by_cases h2 : w.balance < td.value.getD 0
      · simp [walletStep, purchaseToken, hs, h2]; omega
      · by_cases h : td.value.getD 0 ≤ 0
        · simp [walletStep, purchaseToken, deductFunds, hs, h2, h]; omega
        · by_cases ht : tok.success
          · simp [walletStep, purchaseToken, deductFunds, hs, h2, h, ht]; omega
          · simp [walletStep, purchaseToken, deductFunds, addFunds, hs, h2, h, ht]; omega
    · simp [walletStep, purchaseToken, hs]; omega

lemma runWallet_nonneg (w0 : Wallet) (ops : List WOp) (h0 : 0 ≤ w0.balance) :
    0 ≤ (runWallet w0 ops).balance := by
  induction ops generalizing w0 with
  | nil => simpa [runWallet] using h0
  | cons op ops ih =>
    rw [runWallet_cons]
    exact ih _ (walletStep_nonneg w0 op h0)

/-- C1.  From a non-negative initial balance, every state reachable by
addFunds, deductFunds and purchaseToken calls has a non-negative
balance, and deductFunds of any amount strictly above the balance
returns the Insufficient funds failure leaving balance and transactions
unchanged. -/
theorem wallet_balance_never_negative (w0 : Wallet) (ops : List WOp)
    (h0 : 0 ≤ w0.balance) :
    0 ≤ (runWallet w0 ops).balance ∧
    ∀ a : Int, (runWallet w0 ops).balance < a →
      deductFunds (runWallet w0 ops) a =
        ({ success := false, error := some "Insufficient funds" }, runWallet w0 ops) := by
  have hb := runWallet_nonneg w0 ops h0
  refine ⟨hb, fun a ha => ?_⟩
  have h1 : ¬ (a ≤ 0) := by omega
  unfold deductFunds
  rw [if_neg h1, if_pos ha]

/-- Witness for C1 at a concrete run and amount. -/
theorem wallet_balance_never_negative_witness :
    0 ≤ (runWallet ⟨0, [], true⟩ [WOp.add 5, WOp.deduct 2]).balance ∧
    deductFunds (runWallet ⟨0, [], true⟩ [WOp.add 5, WOp.deduct 2]) 100 =
      ({ success := false, error := some "Insufficient funds" },
       runWallet ⟨0, [], true⟩ [WOp.add 5, WOp.deduct 2]) :=
  ⟨(wallet_balance_never_negative ⟨0, [], true⟩ [WOp.add 5, WOp.deduct 2] (by decide)).1,
   (wallet_balance_never_negative ⟨0, [], true⟩ [WOp.add 5, WOp.deduct 2] (by decide)).2
     100 (by decide)⟩

/-- C2.  If the deduction inside purchaseToken succeeds but the token
service reports failure, the wallet re-credits exactly the deducted
amount (final balance equals the balance before the call) and returns
the failing token-creation result. -/
theorem purchaseToken_rolls_back_on_token_failure (w : Wallet) (td : TokenData)
    (tok : TokenCreateResult)
    (hsvc : w.hasTokenService = true)
    (hded : ((deductFunds w (td.value.getD 0)).1).success = true)
    (htok : tok.success = false) :
    (purchaseToken w td tok).1 = { success := false, error := tok.error } ∧
    ((purchaseToken w td tok).2.1).balance = w.balance := by
  set a := td.value.getD 0 with ha
  have h1 : ¬ (a ≤ 0) := by
    intro h
    simp [deductFunds, h] at hded
  have h2 : ¬ (w.balance < a) := by
    intro h
    simp [deductFunds, h1, h] at hded
  constructor
  · simp [purchaseToken, deductFunds, addFunds, hsvc, ← ha, h1, h2, htok]
  · simp [purchaseToken, deductFunds, addFunds, hsvc, ← ha, h1, h2, htok]

/-- Witness for C2 at a concrete wallet, token data and failing token
service outcome. -/
theorem purchaseToken_rolls_back_on_token_failure_witness :
    (purchaseToken ⟨10, [], true⟩ ⟨none, some 4⟩ ⟨false, some "boom", none⟩).1 =
      { success := false, error := some "boom" } ∧
    ((purchaseToken ⟨10, [], true⟩ ⟨none, some 4⟩ ⟨false, some "boom", none⟩).2.1).balance = 10 :=
  purchaseToken_rolls_back_on_token_failure ⟨10, [], true⟩ ⟨none, some 4⟩
    ⟨false, some "boom", none⟩ rfl (by decide) rfl

/-- C8.  The transaction list is append-only under every wallet call,
and every successful addFunds or deductFunds appends exactly one
transaction, of the matching type and amount, at the end. -/
theorem wallet_transactions_append_only :
    (∀ (w : Wallet) (op : WOp),
        ∃ ts, (walletStep w op).transactions = w.transactions ++ ts) ∧
    (∀ (w : Wallet) (a : Int), ((addFunds w a).1).success = true →
        ((addFunds w a).2).transactions = w.transactions ++ [⟨.credit, a⟩]) ∧
    (∀ (w : Wallet) (a : Int), ((deductFunds w a).1).success = true →
        ((deductFunds w a).2).transactions = w.transactions ++ [⟨.debit, a⟩]) := by
  refine ⟨fun w op => ⟨(walletStep_ledger w op).choose, (walletStep_ledger w op).choose_spec.1⟩,
    fun w a h => ?_, fun w a h => ?_⟩
  · by_cases h1 : a ≤ 0
    · simp [addFunds, h1] at h
    · simp [addFunds, h1]
  · by_cases h1 : a ≤ 0
    · simp [deductFunds, h1] at h
    · by_cases h2 : w.balance < a
      · simp [deductFunds, h1, h2] at h
      · simp [deductFunds, h1, h2]

/-- Witness for C8: a successful credit and a successful debit each
append exactly their one transaction. -/
theorem wallet_transactions_append_only_witness :
    ((addFunds ⟨0, [], false⟩ 5).2).transactions = [] ++ [⟨.credit, 5⟩] ∧
    ((deductFunds ⟨9, [], false⟩ 4).2).transactions = [] ++ [⟨.debit, 4⟩] :=
  ⟨wallet_transactions_append_only.2.1 ⟨0, [], false⟩ 5 (by decide),
   wallet_transactions_append_only.2.2 ⟨9, [], false⟩ 4 (by decide)⟩

/-- C9.  After any sequence of wallet calls the balance equals the
initial balance plus the net signed amount (credits minus debits) of
the transactions appended since the start. -/
theorem wallet_balance_equals_ledger_net (w0 : Wallet) (ops : List WOp) :
    ∃ ts, (runWallet w0 ops).transactions = w0.transactions ++ ts ∧
      (runWallet w0 ops).balance = w0.balance + netAmount ts := by
  induction ops generalizing w0 with
  | nil => exact ⟨[], by simp [runWallet, netAmount]⟩
  | cons op ops ih =>
    obtain ⟨ts1, ht1, hb1⟩ := walletStep_ledger w0 op
    obtain ⟨ts2, ht2, hb2⟩ := ih (walletStep w0 op)
    refine ⟨ts1 ++ ts2, ?_, ?_⟩
    · rw [runWallet_cons, ht2, ht1, List.append_assoc]
    · rw [runWallet_cons, hb2, hb1, netAmount_append]
      ring

/-- C10.  purchaseToken with an absent or zero tokenData.value fails
with Invalid amount (from the deductFunds positivity guard), changes no
wallet state, and never reaches the token service. -/
theorem purchaseToken_zero_value_invalid_amount (w : Wallet) (td : TokenData)
    (tok : TokenCreateResult)
    (hsvc : w.hasTokenService = true)
    (hb : 0 ≤ w.balance)
    (hv : td.value.getD 0 = 0) :
    purchaseToken w td tok =
      ({ success := false, error := some "Invalid amount" }, w, false) := by
  have h2 : ¬ (w.balance < td.value.getD 0) := by omega
  simp [purchaseToken, deductFunds, hsvc, hv, h2]
  exact hb

/-- Witness for C10 at a concrete wallet with a missing token value. -/
theorem purchaseToken_zero_value_invalid_amount_witness :
    purchaseToken ⟨7, [], true⟩ ⟨none, none⟩ ⟨true, none, none⟩ =
      ({ success := false, error := some "Invalid amount" }, ⟨7, [], true⟩, false) :=
  purchaseToken_zero_value_invalid_amount ⟨7, [], true⟩ ⟨none, none⟩ ⟨true, none, none⟩
    rfl (by decide) rfl

/-- C4.  When no handler is registered under the current
`state:action` key, transition fails closed: it returns the
no-transition error result and leaves the machine unchanged. -/
theorem machine_transition_fails_closed (env : ServiceEnv) (m : Machine)
    (action : String)
    (h : lookupTransition env (m.currentState ++ ":" ++ action) = none) :
    transition env m action =
      ({ success := false,
         error := some ("No transition from " ++ m.currentState ++ " on " ++ action) },
       m) := by
  simp [transition, h]

/-- Witness for C4: the key idle:signin is not registered. -/
theorem machine_transition_fails_closed_witness :
    transition ⟨true, true, true, ⟨true, none⟩, ⟨true, none⟩, ⟨true, none⟩,
        ⟨true, none⟩, ⟨true, none⟩, 0⟩ ⟨"idle", []⟩ "signin" =
      ({ success := false,
         error := some ("No transition from " ++ "idle" ++ " on " ++ "signin") },
       ⟨"idle", []⟩) :=
  machine_transition_fails_closed
    ⟨true, true, true, ⟨true, none⟩, ⟨true, none⟩, ⟨true, none⟩,
      ⟨true, none⟩, ⟨true, none⟩, 0⟩ ⟨"idle", []⟩ "signin" (by decide)

/-- C5 fails on the code: with the auth service present and its signIn
reporting failure, the registered initialized:signin handler returns an
error object without a next state, and transition spreads it into a
result that is marked success := true while it also carries the error
string.  This contradicts the documented result convention
(success xor error). -/
theorem machine_transition_success_and_error_coexist :
    ((transition ⟨true, true, true, ⟨false, some "Sign in failed"⟩, ⟨true, none⟩,
        ⟨true, none⟩, ⟨true, none⟩, ⟨true, none⟩, 0⟩
        ⟨"initialized", []⟩ "signin").1).success = true ∧
    ((transition ⟨true, true, true, ⟨false, some "Sign in failed"⟩, ⟨true, none⟩,
        ⟨true, none⟩, ⟨true, none⟩, ⟨true, none⟩, 0⟩
        ⟨"initialized", []⟩ "signin").1).error = some "Sign in failed" := by
  decide

lemma transitionTo_length_le (m : Machine) (ns : String) (now : Nat)
    (h : m.stateHistory.length ≤ maxHistorySize) :
    (transitionTo m ns now).stateHistory.length ≤ maxHistorySize := by
  simp only [transitionTo]
  split_ifs with h1
  · simp only [List.length_tail, List.length_append, List.length_cons, List.length_nil]
    omega
  · omega

lemma machineStep_length (m : Machine) (s : MStep)
    (h : m.stateHistory.length ≤ maxHistorySize) :
    (machineStep m s).stateHistory.length ≤ maxHistorySize := by
  cases s with
  | auto ns now => exact transitionTo_length_le m ns now h
  | act action env =>
    simp only [machineStep, transition]
    cases hl : lookupTransition env (m.currentState ++ ":" ++ action) with
    | none => simpa using h
    | some r =>
      cases hn : r.nextState with
      | none => simpa [hn] using h
      | some ns => simpa [hn] using transitionTo_length_le m ns env.now h

lemma runMachine_length (steps : List MStep) :
    ∀ m : Machine, m.stateHistory.length ≤ maxHistorySize →
      (runMachine m steps).stateHistory.length ≤ maxHistorySize := by
  induction steps with
  | nil => intro m h; simpa [runMachine] using h
  | cons s ss ih =>
    intro m h
    have : runMachine m (s :: ss) = runMachine (machineStep m s) ss := by
      simp [runMachine]
    rw [this]
    exact ih _ (machineStep_length m s h)

/-- C6.  Every machine state reachable from the constructor state by
transition calls and direct internal transitions has at most 100
history entries; appending to a full history of 100 entries drops
exactly the oldest entry. -/
theorem machine_history_bounded :
    (∀ steps : List MStep,
        (runMachine ⟨"idle", []⟩ steps).stateHistory.length ≤ 100) ∧
    (∀ (m : Machine) (ns : String) (now : Nat), m.stateHistory.length = 100 →
        (transitionTo m ns now).stateHistory =
          m.stateHistory.tail ++
            [{ fromState := m.currentState, toState := ns, timestamp := now }]) := by
  constructor
  · intro steps
    exact runMachine_length steps ⟨"idle", []⟩ (by simp [maxHistorySize])
  · intro m ns now h
    simp only [transitionTo]
    rw [if_pos (by simp [maxHistorySize, h])]
    cases hh : m.stateHistory with
    | nil => rw [hh] at h; simp at h
    | cons x rest => simp

/-- Witness for C6: one step from the initial machine, and an eviction
from a history of exactly 100 entries. -/
theorem machine_history_bounded_witness :
    (runMachine ⟨"idle", []⟩ [MStep.auto "initialized" 0]).stateHistory.length ≤ 100 ∧
    (transitionTo ⟨"idle", List.replicate 100 ⟨"a", "b", 0⟩⟩ "s" 5).stateHistory =
      (List.replicate 100 (⟨"a", "b", 0⟩ : HistoryEntry)).tail ++ [⟨"idle", "s", 5⟩] :=
  ⟨machine_history_bounded.1 [MStep.auto "initialized" 0],
   machine_history_bounded.2 ⟨"idle", List.replicate 100 ⟨"a", "b", 0⟩⟩ "s" 5 (by simp)⟩

lemma getCallbacks_addListener (ls : List (String × List Nat)) (pat p : String)
    (cb : Nat) :
    getCallbacks (addListener ls pat cb) p =
      if p = pat then setInsert (getCallbacks ls p) cb else getCallbacks ls p := by
  induction ls with
  | nil =>
    by_cases h : p = pat
    · subst h; simp [addListener, getCallbacks, setInsert]
    · have h' : ¬ pat = p := fun hh => h hh.symm
      simp [addListener, getCallbacks, h, h']
  | cons head rest ih =>
    obtain ⟨q, cbs⟩ := head
    by_cases h1 : q = pat
    · subst h1
      by_cases h2 : q = p
      · subst h2; simp [addListener, getCallbacks, setInsert]
      · have h2' : ¬ p = q := fun hh => h2 hh.symm
        simp [addListener, getCallbacks, h2, h2']
    · by_cases h2 : q = p
      · subst h2
        have h1' : ¬ q = pat := h1
        simp [addListener, getCallbacks, h1']
      · simp [addListener, getCallbacks, h1, h2, ih]

lemma getCallbacks_buildListeners_aux (regs : List (String × Nat)) :
    ∀ (acc : List (String × List Nat)) (p : String),
      getCallbacks (regs.foldl (fun ls r => addListener ls r.1 r.2) acc) p =
        insertAll (getCallbacks acc p) (regsFor regs p) := by
  induction regs with
  | nil => intro acc p; simp [regsFor, insertAll]
  | cons r rs ih =>
    intro acc p
    rw [List.foldl_cons, ih, getCallbacks_addListener]
    by_cases h : p = r.1
    · simp [regsFor, insertAll, h, List.filter_cons]
    · have h' : ¬ r.1 = p := fun hh => h hh.symm
      simp [regsFor, insertAll, h, h', List.filter_cons]

lemma mem_setInsert (c : List Nat) (n x : Nat) :
    x ∈ setInsert c n ↔ x ∈ c ∨ x = n := by
  by_cases h : n ∈ c
  · simp only [setInsert, if_pos h]
    constructor
    · exact Or.inl
    · rintro (hx | rfl)
      · exact hx
      · exact h
  · simp [setInsert, h]

lemma mem_insertAll (l : List Nat) :
    ∀ (c : List Nat) (x : Nat), x ∈ insertAll c l ↔ x ∈ c ∨ x ∈ l := by
  induction l with
  | nil => intro c x; simp [insertAll]
  | cons n ns ih =>
    intro c x
    have : insertAll c (n :: ns) = insertAll (setInsert c n) ns := by
      simp [insertAll]
    rw [this, ih, mem_setInsert]
    simp [or_assoc]

lemma nodup_setInsert (c : List Nat) (n : Nat) (h : c.Nodup) :
    (setInsert c n).Nodup := by
  by_cases hm : n ∈ c
  · simpa [setInsert, hm] using h
  · simp [setInsert, hm, List.nodup_append, h]

lemma nodup_insertAll (l : List Nat) :
    ∀ c : List Nat, c.Nodup → (insertAll c l).Nodup := by
  induction l with
  | nil => intro c h; simpa [insertAll] using h
  | cons n ns ih =>
    intro c h
    have : insertAll c (n :: ns) = insertAll (setInsert c n) ns := by
      simp [insertAll]
    rw [this]
    exact ih _ (nodup_setInsert c n h)

lemma insertAll_append_sublist (l : List Nat) :
    ∀ c : List Nat, ∃ d, insertAll c l = c ++ d ∧ List.Sublist d l := by
  induction l with
  | nil => intro c; exact ⟨[], by simp [insertAll], by simp⟩
  | cons n ns ih =>
    intro c
    by_cases hm : n ∈ c
    · obtain ⟨d, hd, hs⟩ := ih c
      refine ⟨d, ?_, hs.cons n⟩
      have : insertAll c (n :: ns) = insertAll c ns := by
        simp [insertAll, setInsert, hm]
      rw [this, hd]
    · obtain ⟨d, hd, hs⟩ := ih (c ++ [n])
      refine ⟨n :: d, ?_, hs.cons₂ n⟩
      have : insertAll c (n :: ns) = insertAll (c ++ [n]) ns := by
        simp [insertAll, setInsert, hm]
      rw [this, hd, List.append_assoc]
      rfl

/-- C3.  Dispatching one event iterates exactly the three patterns
service:type, service:star, star in that order; under each pattern the
invoked callbacks are exactly the ones registered under it, each
invoked exactly once (no duplicates), in registration order (a sublist
of the raw registration sequence for that pattern). -/
theorem listener_dispatch_three_patterns_in_order (regs : List (String × Nat))
    (service ty : String) :
    dispatchEvent (buildListeners regs) service ty =
      getCallbacks (buildListeners regs) (service ++ ":" ++ ty) ++
        getCallbacks (buildListeners regs) (service ++ ":*") ++
        getCallbacks (buildListeners regs) "*" ∧
    ∀ p : String,
      getCallbacks (buildListeners regs) p = insertAll [] (regsFor regs p) ∧
      (getCallbacks (buildListeners regs) p).Nodup ∧
      List.Sublist (getCallbacks (buildListeners regs) p) (regsFor regs p) ∧
      ∀ cb : Nat,
        cb ∈ getCallbacks (buildListeners regs) p ↔ cb ∈ regsFor regs p := by
  constructor
  · simp [dispatchEvent, eventPatterns, List.append_assoc]
  · intro p
    have hb : getCallbacks (buildListeners regs) p = insertAll [] (regsFor regs p) := by
      have := getCallbacks_buildListeners_aux regs [] p
      simpa [buildListeners, getCallbacks] using this
    obtain ⟨d, hd, hs⟩ := insertAll_append_sublist (regsFor regs p) []
    refine ⟨hb, ?_, ?_, ?_⟩
    · rw [hb]; exact nodup_insertAll _ _ List.nodup_nil
    · rw [hb, hd]; simpa using hs
    · intro cb; rw [hb, mem_insertAll]; simp

lemma drain_take_aux (emits : Nat → List Nat) :
    ∀ (fuel : Nat) (q₁ q₂ : List Nat), q₁.length ≤ fuel →
      ((drain emits fuel (q₁ ++ q₂)).1).take q₁.length = q₁ := by
  intro fuel
  induction fuel with
  | zero =>
    intro q₁ q₂ h
    have : q₁ = [] := List.eq_nil_of_length_eq_zero (Nat.le_zero.mp h)
    subst this
    simp
  | succ n ih =>
    intro q₁ q₂ h
    cases q₁ with
    | nil => simp
    | cons e rest =>
      have hlen : rest.length ≤ n := by
        simp only [List.length_cons] at h
        omega
      show ((drain emits (n + 1) (e :: (rest ++ q₂))).1).take (rest.length + 1) =
        e :: rest
      simp only [drain, List.take_succ_cons]
      rw [List.append_assoc]
      rw [ih rest (q₂ ++ emits e) hlen]

/-- C7.  The reentrancy guard: while a batch is being processed,
handling a new event only appends it to the queue and dispatches
nothing; and the drain loop dispatches the events already queued in
FIFO arrival order, all of them before any event enqueued during the
batch (which the loop appends at the back). -/
theorem listener_fifo_and_reentrancy_guard (emits : Nat → List Nat) :
    (∀ (fuel : Nat) (st : IntState) (e : Nat), st.isProcessing = true →
        handleEvent emits fuel st e = ([], ⟨st.eventQueue ++ [e], true⟩)) ∧
    (∀ (fuel : Nat) (q : List Nat), q.length ≤ fuel →
        ((drain emits fuel q).1).take q.length = q) := by
  constructor
  · intro fuel st e h
    simp [handleEvent, processQueue, h]
  · intro fuel q h
    have := drain_take_aux emits fuel q [] h
    simpa using this

/-- Witness for C7: a guarded handleEvent call and a concrete drain. -/
theorem listener_fifo_and_reentrancy_guard_witness :
    handleEvent (fun _ => []) 5 ⟨[1, 2], true⟩ 3 = ([], ⟨[1, 2, 3], true⟩) ∧
    ((drain (fun _ => []) 5 [1, 2]).1).take 2 = [1, 2] :=
  ⟨(listener_fifo_and_reentrancy_guard (fun _ => [])).1 5 ⟨[1, 2], true⟩ 3 rfl,
   (listener_fifo_and_reentrancy_guard (fun _ => [])).2 5 [1, 2] (by decide)⟩

end Pewpi
